import Mathlib

/-
Shallow embedding of depmap_network_functions.py.

A statement is an assertion between named participants (agents); an agent
may be absent (the source tolerates None entries in agent_list()).  The
relation-type label is the string found under the type key of the JSON
form of the statement.  The ontology hierarchy manager is modelled by its
two operations used here: get_uri builds the uri of an id in a namespace,
and get_parents returns the ancestor set of a uri at a given scope.  The
Python set of agent names is modelled as a deduplicated list so that the
iteration order used by nested_dict_gen stays an explicit enumeration.
-/

structure Stmt where
  agents : List (Option String)
  type : String
deriving DecidableEq

structure HierarchyManager where
  get_uri : String → String → String
  get_parents : String → String → Finset String

/-- The try branch of agent_name_set: mapping ag.name over agent_list()
raises AttributeError as soon as some agent is None (the set built inside
the update call is never produced, so nothing is partially added). -/
def agent_names_try (st : Stmt) : Except String (List String) :=
  if st.agents.all Option.isSome then
    .ok ((st.agents.filterMap (fun a => a)).dedup)
  else
    .error "AttributeError"

/-- The except branch of agent_name_set: iterate the agents, skipping the
None entries. -/
def agent_names_fallback (st : Stmt) : List String :=
  (st.agents.filterMap (fun a => a)).dedup

/-- agent_name_set(stmt): the set of agent names in a statement, with the
AttributeError fallback of the source. -/
def agent_name_set (st : Stmt) : List String :=
  match agent_names_try st with
  | .ok ags => ags
  | .error _ => agent_names_fallback st

/-- find_parent(ho, ns, id, type) = ho.get_parents(ho.get_uri(ns, id), type). -/
def find_parent (ho : HierarchyManager) (ns theId ty : String) : Finset String :=
  ho.get_parents (ho.get_uri ns theId) ty

/-- common_parent: intersection of the two parent sets. -/
def common_parent (ho : HierarchyManager) (ns1 id1 ns2 id2 ty : String) : Finset String :=
  find_parent ho ns1 id1 ty ∩ find_parent ho ns2 id2 ty

/-- has_common_parent: truthiness of the common_parent set. -/
def has_common_parent (ho : HierarchyManager) (ns1 id1 ns2 id2 ty : String) : Bool :=
  decide (common_parent ho ns1 id1 ns2 id2 ty ≠ ∅)

/-
The nested dict built by nested_dict_gen: a partial map from a pair of
names to the set of connection labels.  An absent entry is none; the
try/except KeyError insertion of the source either inserts into the
existing set or creates the fresh singleton.
-/

def Index : Type := String → String → Option (Finset String)

def idxEmpty : Index := fun _ _ => none

def idxAdd (d : Index) (a b lbl : String) : Index :=
  fun x y =>
    if x = a ∧ y = b then
      match d a b with
      | some s => some (insert lbl s)
      | none => some {lbl}
    else d x y

/-- The label set recorded for a pair, empty when the entry is absent. -/
def idxLabels (d : Index) (a b : String) : Finset String :=
  (d a b).getD ∅

/-- itt.permutations(agent_names, r=2): every ordered pair of entries at
distinct positions; agent_names is built from a set so its entries are
distinct and position-distinct coincides with value-distinct. -/
def orderedPairs (l : List String) : List (String × String) :=
  l.flatMap (fun a => (l.filter (fun b => b != a)).map (fun b => (a, b)))

/-- The body of the permutation loop of nested_dict_gen: add the
connection label for the ordered pair, then add the parent sentinel when
the two names share a common parent (default namespace HGNC, scope all). -/
def processPair (ho : HierarchyManager) (connection : String) (d : Index)
    (p : String × String) : Index :=
  if has_common_parent ho "HGNC" p.1 "HGNC" p.2 "all" then
    idxAdd (idxAdd d p.1 p.2 connection) p.1 p.2 "parent"
  else
    idxAdd d p.1 p.2 connection

/-- One statement of the loop of nested_dict_gen: skip when fewer than two
distinct agent names or when the type label is falsy (empty string). -/
def processStmt (ho : HierarchyManager) (d : Index) (st : Stmt) : Index :=
  if (agent_name_set st).length > 1 then
    if st.type ≠ "" then
      (orderedPairs (agent_name_set st)).foldl (processPair ho st.type) d
    else d
  else d

/-- nested_dict_gen(stmts): fold the statements into the nested dict. -/
def nested_dict_gen (ho : HierarchyManager) (stmts : List Stmt) : Index :=
  stmts.foldl (processStmt ho) idxEmpty

/-
dbc_load_statements: the per-id fetch against the statement store either
returns a list of statements or raises; the source catches exactly
KeyboardInterrupt and StatementError, rolls the session back and re-raises
the same exception object.  Any other exception propagates untouched.
-/

inductive DBExc where
  | statementError
  | keyboardInterrupt
  | otherExc
deriving DecidableEq

structure Session where
  rolledBack : Bool
deriving DecidableEq

def Session.rollback (s : Session) : Session := { s with rolledBack := true }

/-- The try block of dbc_load_statements: accumulate the fetched
statements for each id into one deduplicated set, stopping at the first
exception. -/
def dbc_load_go (fetch : String → Except DBExc (List Stmt)) :
    List String → Finset Stmt → Except DBExc (Finset Stmt)
  | [], acc => .ok acc
  | i :: rest, acc =>
    match fetch i with
    | .ok found => dbc_load_go fetch rest (acc ∪ found.toFinset)
    | .error e => .error e

/-- dbc_load_statements(hgnc_ids): run the loop; on StatementError or
KeyboardInterrupt roll back the session and re-raise the same exception;
other exceptions propagate without the rollback. -/
def dbc_load_statements (fetch : String → Except DBExc (List Stmt))
    (hgnc_ids : List String) (s : Session) :
    Except DBExc (Finset Stmt) × Session :=
  match dbc_load_go fetch hgnc_ids ∅ with
  | .ok stmts => (.ok stmts, s)
  | .error .keyboardInterrupt => (.error .keyboardInterrupt, s.rollback)
  | .error .statementError => (.error .statementError, s.rollback)
  | .error e => (.error e, s)

/-
The REST client capi.get_statements, taking subject, object and the
on_limit mode; it may raise IndraDBRestError, modelled as the error case.
-/

def ApiFn : Type := String → String → String → Except Unit (List Stmt)

/-- direct_relation_from_api(id1, id2, on_limit).  The source evaluates
the reverse query inside the expression statement stmts + capi.get_statements(...)
but never assigns the sum, so the reverse result is bound and dropped here;
an IndraDBRestError from either query inside the try switches to the
TEXT-suffixed fallback queries, whose reverse result is dropped the same way. -/
def direct_relation_from_api (api : ApiFn) (id1 id2 on_limit : String) :
    Except Unit (List Stmt) :=
  match (do
      let stmts ← api id1 id2 on_limit
      let _ ← api id2 id1 on_limit
      pure stmts : Except Unit (List Stmt)) with
  | .ok stmts => .ok stmts
  | .error _ => do
      let stmts ← api (id1 ++ "@TEXT") (id2 ++ "@TEXT") on_limit
      let _ ← api (id2 ++ "@TEXT") (id1 ++ "@TEXT") on_limit
      pure stmts

/-- direct_relation_from_stmts(id1, id2, stmts_in): keep the statements
whose agent-name set contains both ids ({id1, id2}.issubset(s_agents)). -/
def direct_relation_from_stmts (id1 id2 : String) (stmts_in : List Stmt) :
    List Stmt :=
  stmts_in.filter (fun s =>
    decide (id1 ∈ agent_name_set s ∧ id2 ∈ agent_name_set s))

/-- relation_type(stmt): the type label of the JSON form. -/
def relation_type (indra_stmt : Stmt) : String := indra_stmt.type

/-- relation_types(stmts): map relation_type over the list, in order. -/
def relation_types (stmts : List Stmt) : List String :=
  stmts.map relation_type

/-- direct_relation(id1, id2, long_stmts): the source tests the
truthiness of long_stmts (default the empty set), so an empty collection
takes the API path and only a nonempty one takes the local path. -/
def direct_relation (api : ApiFn) (id1 id2 : String) (long_stmts : List Stmt) :
    Except Unit (List Stmt) :=
  if long_stmts.isEmpty then
    direct_relation_from_api api id1 id2 "sample"
  else
    .ok (direct_relation_from_stmts id1 id2 long_stmts)

/-- has_direct_relation: truthiness of the direct_relation list. -/
def has_direct_relation (api : ApiFn) (id1 id2 : String)
    (long_stmts : List Stmt) : Except Unit Bool :=
  (direct_relation api id1 id2 long_stmts).map (fun stmts => !stmts.isEmpty)

/-- are_connected(id1, id2, long_stmts): the source writes
has_common_parent(ns1=HGCN, id1=id1, ns2=HGCN, id2=id2) or
has_direct_relation(...), with the namespace string HGCN as spelled there
and Python short-circuiting the or. -/
def are_connected (ho : HierarchyManager) (api : ApiFn) (id1 id2 : String)
    (long_stmts : List Stmt) : Except Unit Bool :=
  if has_common_parent ho "HGCN" id1 "HGCN" id2 "all" then .ok true
  else has_direct_relation api id1 id2 long_stmts

/-- connection_types(id1, id2, long_stmts): the relation types of the
direct relations, with the parent sentinel appended when
has_common_parent (default namespace HGNC) holds. -/
def connection_types (ho : HierarchyManager) (api : ApiFn) (id1 id2 : String)
    (long_stmts : List Stmt) : Except Unit (List String) :=
  (direct_relation api id1 id2 long_stmts).map (fun stmts =>
    let ctypes := relation_types stmts
    if has_common_parent ho "HGNC" id1 "HGNC" id2 "all" then
      ctypes ++ ["parent"]
    else ctypes)

/-
Concrete instances used to evaluate the operations at specific inputs.
-/

/-- A statement relating the agents A and B. -/
def stmtAB : Stmt := { agents := [some "A", some "B"], type := "Activation" }

/-- A store in which only the query with subject B and object A returns a
statement; every other query returns the empty list without error. -/
def apiRevOnly : ApiFn :=
  fun s o _ => if s = "B" ∧ o = "A" then .ok [stmtAB] else .ok []

/-- A store that answers every query with the empty list. -/
def apiEmpty : ApiFn := fun _ _ _ => .ok []

/-- A store that answers every query with the single statement stmtAB. -/
def apiAB : ApiFn := fun _ _ _ => .ok [stmtAB]

/-- An ontology in which the ids X and Y have the common parent P under
the namespace HGNC and no node exists under any other namespace. -/
def hoXY : HierarchyManager :=
  { get_uri := fun ns i => ns ++ ":" ++ i
    get_parents := fun uri _ =>
      if uri = "HGNC:X" ∨ uri = "HGNC:Y" then {"P"} else ∅ }

/-- A statement whose agent list holds a null participant. -/
def stmtNull : Stmt := { agents := [some "A", none, some "B"], type := "Complex" }

/-- A per-id fetch that fails with StatementError on the id G2 and
succeeds on every other id. -/
def fetchBad : String → Except DBExc (List Stmt) :=
  fun i => if i = "G2" then .error DBExc.statementError else .ok [stmtAB]

/-
Helper lemmas: membership and entry-existence characterizations of the
nested index, shared by several of the claim theorems below.
-/

theorem agent_name_set_eq (st : Stmt) :
    agent_name_set st = (st.agents.filterMap (fun a => a)).dedup := by
  by_cases h : st.agents.all Option.isSome = true
  · simp [agent_name_set, agent_names_try, h]
  · simp [agent_name_set, agent_names_try, agent_names_fallback, h]

theorem mem_agent_name_set (st : Stmt) (n : String) :
    n ∈ agent_name_set st ↔ some n ∈ st.agents := by
  rw [agent_name_set_eq]
  simp [List.mem_dedup, List.mem_filterMap]

theorem mem_idxLabels_idxAdd (d : Index) (a b lbl x y L : String) :
    L ∈ idxLabels (idxAdd d a b lbl) x y ↔
      (x = a ∧ y = b ∧ L = lbl) ∨ L ∈ idxLabels d x y := by
  unfold idxLabels idxAdd
  by_cases hxy : x = a ∧ y = b
  · obtain ⟨hx, hy⟩ := hxy
    subst hx; subst hy
    cases hd : d x y with
    | none => simp [hd]
    | some s => simp [hd]
  · rw [if_neg hxy]
    constructor
    · exact Or.inr
    · rintro (⟨hx, hy, _⟩ | hmem)
      · exact absurd ⟨hx, hy⟩ hxy
      · exact hmem

theorem isSome_idxAdd (d : Index) (a b lbl x y : String) :
    (idxAdd d a b lbl x y).isSome = true ↔
      (x = a ∧ y = b) ∨ (d x y).isSome = true := by
  unfold idxAdd
  by_cases hxy : x = a ∧ y = b
  · obtain ⟨hx, hy⟩ := hxy
    subst hx; subst hy
    cases hd : d x y <;> simp [hd]
  · rw [if_neg hxy]
    simp [hxy]

theorem mem_idxLabels_processPair (ho : HierarchyManager) (c : String)
    (d : Index) (p : String × String) (x y L : String) :
    L ∈ idxLabels (processPair ho c d p) x y ↔
      (x = p.1 ∧ y = p.2 ∧
        (L = c ∨ (L = "parent" ∧
          has_common_parent ho "HGNC" x "HGNC" y "all" = true)))
      ∨ L ∈ idxLabels d x y := by
  unfold processPair
  cases hcp : has_common_parent ho "HGNC" p.1 "HGNC" p.2 "all" with
  | false =>
    rw [if_neg (by simp [hcp])]
    rw [mem_idxLabels_idxAdd]
    constructor
    · rintro (⟨hx, hy, hL⟩ | hmem)
      · exact Or.inl ⟨hx, hy, Or.inl hL⟩
      · exact Or.inr hmem
    · rintro (⟨hx, hy, hL | ⟨hL, hhcp⟩⟩ | hmem)
      · exact Or.inl ⟨hx, hy, hL⟩
      · subst hx; subst hy
        rw [hcp] at hhcp
        exact absurd hhcp (by simp)
      · exact Or.inr hmem
  | true =>
    rw [if_pos (by simp [hcp])]
    rw [mem_idxLabels_idxAdd, mem_idxLabels_idxAdd]
    constructor
    · rintro (⟨hx, hy, hL⟩ | ⟨hx, hy, hL⟩ | hmem)
      · refine Or.inl ⟨hx, hy, Or.inr ⟨hL, ?_⟩⟩
        subst hx; subst hy; exact hcp
      · exact Or.inl ⟨hx, hy, Or.inl hL⟩
      · exact Or.inr hmem
    · rintro (⟨hx, hy, hL | ⟨hL, _⟩⟩ | hmem)
      · exact Or.inr (Or.inl ⟨hx, hy, hL⟩)
      · exact Or.inl ⟨hx, hy, hL⟩
      · exact Or.inr (Or.inr hmem)

theorem isSome_processPair (ho : HierarchyManager) (c : String) (d : Index)
    (p : String × String) (x y : String) :
    (processPair ho c d p x y).isSome = true ↔
      (x = p.1 ∧ y = p.2) ∨ (d x y).isSome = true := by
  unfold processPair
  cases hcp : has_common_parent ho "HGNC" p.1 "HGNC" p.2 "all" with
  | false =>
    rw [if_neg (by simp [hcp])]
    exact isSome_idxAdd d p.1 p.2 c x y
  | true =>
    rw [if_pos (by simp [hcp])]
    rw [isSome_idxAdd, isSome_idxAdd]
    tauto

theorem mem_idxLabels_foldl_pairs (ho : HierarchyManager) (c : String)
    (pairs : List (String × String)) (d : Index) (x y L : String) :
    L ∈ idxLabels (pairs.foldl (processPair ho c) d) x y ↔
      L ∈ idxLabels d x y ∨
      ((x, y) ∈ pairs ∧
        (L = c ∨ (L = "parent" ∧
          has_common_parent ho "HGNC" x "HGNC" y "all" = true))) := by
  induction pairs generalizing d with
  | nil => simp
  | cons p rest ih =>
    simp only [List.foldl_cons, ih, mem_idxLabels_processPair, List.mem_cons,
      Prod.ext_iff]
    tauto

theorem isSome_foldl_pairs (ho : HierarchyManager) (c : String)
    (pairs : List (String × String)) (d : Index) (x y : String) :
    ((pairs.foldl (processPair ho c) d) x y).isSome = true ↔
      (d x y).isSome = true ∨ (x, y) ∈ pairs := by
  induction pairs generalizing d with
  | nil => simp
  | cons p rest ih =>
    simp only [List.foldl_cons, ih, isSome_processPair, List.mem_cons,
      Prod.ext_iff]
    tauto

theorem mem_orderedPairs (l : List String) (x y : String) :
    (x, y) ∈ orderedPairs l ↔ x ∈ l ∧ y ∈ l ∧ y ≠ x := by
  simp [orderedPairs, List.mem_flatMap, List.mem_filter, Prod.ext_iff]

theorem one_lt_length_of_two_mem {l : List String} {x y : String}
    (hx : x ∈ l) (hy : y ∈ l) (hxy : x ≠ y) : 1 < l.length := by
  match l with
  | [] => simp at hx
  | [a] =>
    simp at hx hy
    exact absurd (hx.trans hy.symm) hxy
  | a :: b :: t => simp

theorem mem_idxLabels_processStmt (ho : HierarchyManager) (d : Index)
    (st : Stmt) (x y L : String) :
    L ∈ idxLabels (processStmt ho d st) x y ↔
      L ∈ idxLabels d x y ∨
      (st.type ≠ "" ∧ x ∈ agent_name_set st ∧ y ∈ agent_name_set st ∧ x ≠ y ∧
        (L = st.type ∨ (L = "parent" ∧
          has_common_parent ho "HGNC" x "HGNC" y "all" = true))) := by
  unfold processStmt
  by_cases hlen : (agent_name_set st).length > 1
  · rw [if_pos hlen]
    by_cases hty : st.type ≠ ""
    · rw [if_pos hty]
      rw [mem_idxLabels_foldl_pairs, mem_orderedPairs]
      constructor
      · rintro (hmem | ⟨⟨hx, hy, hyx⟩, hphi⟩)
        · exact Or.inl hmem
        · exact Or.inr ⟨hty, hx, hy, Ne.symm hyx, hphi⟩
      · rintro (hmem | ⟨_, hx, hy, hxy, hphi⟩)
        · exact Or.inl hmem
        · exact Or.inr ⟨⟨hx, hy, Ne.symm hxy⟩, hphi⟩
    · rw [if_neg hty]
      push_neg at hty
      constructor
      · exact Or.inl
      · rintro (hmem | ⟨hty2, _⟩)
        · exact hmem
        · exact absurd hty hty2
  · rw [if_neg hlen]
    constructor
    · exact Or.inl
    · rintro (hmem | ⟨_, hx, hy, hxy, _⟩)
      · exact hmem
      · exact absurd (one_lt_length_of_two_mem hx hy hxy) hlen

theorem isSome_processStmt (ho : HierarchyManager) (d : Index) (st : Stmt)
    (x y : String) :
    (processStmt ho d st x y).isSome = true ↔
      (d x y).isSome = true ∨
      (st.type ≠ "" ∧ x ∈ agent_name_set st ∧ y ∈ agent_name_set st ∧ x ≠ y) := by
  unfold processStmt
  by_cases hlen : (agent_name_set st).length > 1
  · rw [if_pos hlen]
    by_cases hty : st.type ≠ ""
    · rw [if_pos hty]
      rw [isSome_foldl_pairs, mem_orderedPairs]
      constructor
      · rintro (hmem | ⟨hx, hy, hyx⟩)
        · exact Or.inl hmem
        · exact Or.inr ⟨hty, hx, hy, Ne.symm hyx⟩
      · rintro (hmem | ⟨_, hx, hy, hxy⟩)
        · exact Or.inl hmem
        · exact Or.inr ⟨hx, hy, Ne.symm hxy⟩
    · rw [if_neg hty]
      push_neg at hty
      constructor
      · exact Or.inl
      · rintro (hmem | ⟨hty2, _⟩)
        · exact hmem
        · exact absurd hty hty2
  · rw [if_neg hlen]
    constructor
    · exact Or.inl
    · rintro (hmem | ⟨_, hx, hy, hxy⟩)
      · exact hmem
      · exact absurd (one_lt_length_of_two_mem hx hy hxy) hlen

theorem mem_idxLabels_foldl_stmts (ho : HierarchyManager) (stmts : List Stmt)
    (d : Index) (x y L : String) :
    L ∈ idxLabels (stmts.foldl (processStmt ho) d) x y ↔
      L ∈ idxLabels d x y ∨
      ∃ st ∈ stmts, st.type ≠ "" ∧ x ∈ agent_name_set st ∧
        y ∈ agent_name_set st ∧ x ≠ y ∧
        (L = st.type ∨ (L = "parent" ∧
          has_common_parent ho "HGNC" x "HGNC" y "all" = true)) := by
  induction stmts generalizing d with
  | nil => simp
  | cons s rest ih =>
    simp only [List.foldl_cons, ih, mem_idxLabels_processStmt, List.mem_cons]
    constructor
    · rintro ((hmem | hs) | ⟨st, hst, hphi⟩)
      · exact Or.inl hmem
      · exact Or.inr ⟨s, Or.inl rfl, hs⟩
      · exact Or.inr ⟨st, Or.inr hst, hphi⟩
    · rintro (hmem | ⟨st, rfl | hst, hphi⟩)
      · exact Or.inl (Or.inl hmem)
      · exact Or.inl (Or.inr hphi)
      · exact Or.inr ⟨st, hst, hphi⟩

theorem isSome_foldl_stmts (ho : HierarchyManager) (stmts : List Stmt)
    (d : Index) (x y : String) :
    ((stmts.foldl (processStmt ho) d) x y).isSome = true ↔
      (d x y).isSome = true ∨
      ∃ st ∈ stmts, st.type ≠ "" ∧ x ∈ agent_name_set st ∧
        y ∈ agent_name_set st ∧ x ≠ y := by
  induction stmts generalizing d with
  | nil => simp
  | cons s rest ih =>
    simp only [List.foldl_cons, ih, isSome_processStmt, List.mem_cons]
    constructor
    · rintro ((hmem | hs) | ⟨st, hst, hphi⟩)
      · exact Or.inl hmem
      · exact Or.inr ⟨s, Or.inl rfl, hs⟩
      · exact Or.inr ⟨st, Or.inr hst, hphi⟩
    · rintro (hmem | ⟨st, rfl | hst, hphi⟩)
      · exact Or.inl (Or.inl hmem)
      · exact Or.inl (Or.inr hphi)
      · exact Or.inr ⟨st, hst, hphi⟩

theorem mem_idxLabels_nested (ho : HierarchyManager) (stmts : List Stmt)
    (x y L : String) :
    L ∈ idxLabels (nested_dict_gen ho stmts) x y ↔
      ∃ st ∈ stmts, st.type ≠ "" ∧ x ∈ agent_name_set st ∧
        y ∈ agent_name_set st ∧ x ≠ y ∧
        (L = st.type ∨ (L = "parent" ∧
          has_common_parent ho "HGNC" x "HGNC" y "all" = true)) := by
  unfold nested_dict_gen
  rw [mem_idxLabels_foldl_stmts]
  simp [idxLabels, idxEmpty]

theorem isSome_nested (ho : HierarchyManager) (stmts : List Stmt)
    (x y : String) :
    (nested_dict_gen ho stmts x y).isSome = true ↔
      ∃ st ∈ stmts, st.type ≠ "" ∧ x ∈ agent_name_set st ∧
        y ∈ agent_name_set st ∧ x ≠ y := by
  unfold nested_dict_gen
  rw [isSome_foldl_stmts]
  simp [idxEmpty]

theorem has_common_parent_comm (ho : HierarchyManager)
    (ns1 id1 ns2 id2 ty : String) :
    has_common_parent ho ns1 id1 ns2 id2 ty =
      has_common_parent ho ns2 id2 ns1 id1 ty := by
  unfold has_common_parent common_parent
  rw [Finset.inter_comm]

/-- Claim C1: the source line stmts + capi.get_statements(subject=id2,
object=id1, ...) discards its value, so the reverse-query statements never
reach the returned list: with a store whose forward query is empty and
whose reverse query returns stmtAB, the call returns the empty list even
though the claim requires stmtAB to appear. -/
theorem C1_reverse_query_dropped :
    direct_relation_from_api apiRevOnly "A" "B" "sample" = .ok [] ∧
    apiRevOnly "B" "A" "sample" = .ok [stmtAB] ∧
    stmtAB ∉ ([] : List Stmt) := by
  refine ⟨rfl, rfl, ?_⟩
  simp

/-- Claim C2: are_connected is claimed true exactly when the two ids share
an ontology parent or a direct relation, but the source queries common
parents under the misspelled namespace HGCN: for the ids X and Y, which
share the HGNC parent P, have no HGCN-namespace node and no relating
statement, are_connected returns false although the claim requires true. -/
theorem C2_hgcn_namespace_defeats_parent_check :
    are_connected hoXY apiEmpty "X" "Y" [] = .ok false ∧
    has_common_parent hoXY "HGNC" "X" "HGNC" "Y" "all" = true ∧
    direct_relation_from_stmts "X" "Y" [] = [] := by
  refine ⟨rfl, ?_, rfl⟩
  decide

/-- Claim C3, counterexample: on the empty statement collection the index
has no entry for the pair (X, Y) even though X and Y share the common
ancestor P, contradicting the claimed iff. -/
theorem C3_counterexample_parent_without_statement :
    nested_dict_gen hoXY [] "X" "Y" = none ∧
    has_common_parent hoXY "HGNC" "X" "HGNC" "Y" "all" = true := by
  refine ⟨rfl, ?_⟩
  decide

/-- Claim C4, counterexample: with an explicitly supplied empty
collection, direct_relation takes the API path (returning the store
answer stmtAB) rather than delegating to direct_relation_from_stmts,
which returns the empty list on the empty collection. -/
theorem C4_counterexample_empty_collection_uses_api :
    direct_relation apiAB "A" "B" [] = .ok [stmtAB] ∧
    direct_relation_from_stmts "A" "B" [] = [] := by
  constructor <;> rfl

/-- Claim C4 (amended): direct_relation delegates to
direct_relation_from_stmts exactly when the supplied collection is
nonempty; on an empty (or absent) collection it calls
direct_relation_from_api with the default sample mode. -/
theorem C4_delegation (api : ApiFn) (id1 id2 : String) (ls : List Stmt)
    (h : ls ≠ []) :
    direct_relation api id1 id2 ls = .ok (direct_relation_from_stmts id1 id2 ls) ∧
    direct_relation api id1 id2 [] = direct_relation_from_api api id1 id2 "sample" := by
  constructor
  · unfold direct_relation
    rw [if_neg]
    simp [h]
  · rfl

theorem C4_delegation_witness :
    direct_relation apiAB "A" "B" [stmtAB] =
      .ok (direct_relation_from_stmts "A" "B" [stmtAB]) ∧
    direct_relation apiAB "A" "B" [] = direct_relation_from_api apiAB "A" "B" "sample" :=
  C4_delegation apiAB "A" "B" [stmtAB] (by simp)

/-- Claim C5: are_connected queries common parents under the namespace
string HGCN while connection_types queries under HGNC, so a pair with a
common HGNC parent, no HGCN-namespace parents and no direct relation is
reported unconnected by are_connected yet given the single connection
type parent by connection_types. -/
theorem C5_namespace_inconsistency :
    are_connected hoXY apiEmpty "X" "Y" [] = .ok false ∧
    connection_types hoXY apiEmpty "X" "Y" [] = .ok ["parent"] := by
  constructor <;> rfl

/-- Claim C3 (amended): the index built by nested_dict_gen has an entry
for (a, b) exactly when some statement of the collection with a nonempty
relation-type label has both a and b among its distinct agent names;
sharing an ontology ancestor without such a statement creates no entry. -/
theorem C3_entry_iff_co_statement (ho : HierarchyManager) (stmts : List Stmt)
    (a b : String) :
    (nested_dict_gen ho stmts a b).isSome = true ↔
      ∃ st ∈ stmts, st.type ≠ "" ∧ a ∈ agent_name_set st ∧
        b ∈ agent_name_set st ∧ a ≠ b :=
  isSome_nested ho stmts a b

/-- Claim C6: the index built by nested_dict_gen is symmetric in content:
a label L, the parent sentinel included, is recorded for (a, b) exactly
when it is recorded for (b, a). -/
theorem C6_index_symmetric (ho : HierarchyManager) (stmts : List Stmt)
    (a b L : String) :
    L ∈ idxLabels (nested_dict_gen ho stmts) a b ↔
      L ∈ idxLabels (nested_dict_gen ho stmts) b a := by
  rw [mem_idxLabels_nested, mem_idxLabels_nested]
  constructor
  · rintro ⟨st, hst, hty, ha, hb, hab, hL | ⟨hL, hcp⟩⟩
    · exact ⟨st, hst, hty, hb, ha, Ne.symm hab, Or.inl hL⟩
    · refine ⟨st, hst, hty, hb, ha, Ne.symm hab, Or.inr ⟨hL, ?_⟩⟩
      rw [has_common_parent_comm] at hcp
      exact hcp
  · rintro ⟨st, hst, hty, hb, ha, hba, hL | ⟨hL, hcp⟩⟩
    · exact ⟨st, hst, hty, ha, hb, Ne.symm hba, Or.inl hL⟩
    · refine ⟨st, hst, hty, ha, hb, Ne.symm hba, Or.inr ⟨hL, ?_⟩⟩
      rw [has_common_parent_comm] at hcp
      exact hcp

/-- Claim C7: direct_relation_from_stmts returns exactly the statements
of the collection whose agent-name set contains both ids. -/
theorem C7_from_stmts_exact (id1 id2 : String) (S : List Stmt) (st : Stmt) :
    st ∈ direct_relation_from_stmts id1 id2 S ↔
      st ∈ S ∧ id1 ∈ agent_name_set st ∧ id2 ∈ agent_name_set st := by
  simp [direct_relation_from_stmts, List.mem_filter, and_assoc]

/-- Claim C8: connection_types returns the relation-type labels of the
statements direct_relation returned, in that order, followed by the
parent sentinel exactly when has_common_parent holds; its length is the
number of direct-relation labels plus one exactly when a common parent
exists. -/
theorem C8_connection_types_shape (ho : HierarchyManager) (api : ApiFn)
    (id1 id2 : String) (ls ds : List Stmt)
    (h : direct_relation api id1 id2 ls = .ok ds) :
    connection_types ho api id1 id2 ls =
      .ok (relation_types ds ++
        (if has_common_parent ho "HGNC" id1 "HGNC" id2 "all" then ["parent"]
         else [])) ∧
    (relation_types ds ++
        (if has_common_parent ho "HGNC" id1 "HGNC" id2 "all" then ["parent"]
         else [])).length =
      (relation_types ds).length +
        (if has_common_parent ho "HGNC" id1 "HGNC" id2 "all" then 1 else 0) := by
  constructor
  · unfold connection_types
    rw [h]
    cases hcp : has_common_parent ho "HGNC" id1 "HGNC" id2 "all" <;>
      simp [Except.map, hcp]
  · cases hcp : has_common_parent ho "HGNC" id1 "HGNC" id2 "all" <;> simp [hcp]

theorem C8_connection_types_shape_witness :
    connection_types hoXY apiAB "A" "B" [] =
      .ok (relation_types [stmtAB] ++
        (if has_common_parent hoXY "HGNC" "A" "HGNC" "B" "all" then ["parent"]
         else [])) ∧
    (relation_types [stmtAB] ++
        (if has_common_parent hoXY "HGNC" "A" "HGNC" "B" "all" then ["parent"]
         else [])).length =
      (relation_types [stmtAB]).length +
        (if has_common_parent hoXY "HGNC" "A" "HGNC" "B" "all" then 1 else 0) :=
  C8_connection_types_shape hoXY apiAB "A" "B" [] [stmtAB] rfl

/-- Claim C9: on a statement whose agent list holds a null participant,
the try branch of agent_name_set raises AttributeError, the fallback
branch is taken without the exception escaping, and the result is the set
of names of the non-null participants. -/
theorem C9_null_agent_tolerated (st : Stmt)
    (h : (none : Option String) ∈ st.agents) :
    agent_names_try st = .error "AttributeError" ∧
    agent_name_set st = agent_names_fallback st ∧
    ∀ n : String, n ∈ agent_name_set st ↔ some n ∈ st.agents := by
  have hall : ¬ (st.agents.all Option.isSome = true) := by
    simp only [List.all_eq_true]
    intro hcon
    have := hcon none h
    simp at this
  have htry : agent_names_try st = .error "AttributeError" := by
    unfold agent_names_try
    rw [if_neg hall]
  refine ⟨htry, ?_, ?_⟩
  · unfold agent_name_set
    rw [htry]
  · intro n
    exact mem_agent_name_set st n

theorem C9_null_agent_tolerated_witness :
    agent_names_try stmtNull = .error "AttributeError" ∧
    agent_name_set stmtNull = agent_names_fallback stmtNull ∧
    ∀ n : String, n ∈ agent_name_set stmtNull ↔ some n ∈ stmtNull.agents :=
  C9_null_agent_tolerated stmtNull (by simp [stmtNull])

theorem dbc_load_go_error (fetch : String → Except DBExc (List Stmt))
    (pre : List String) (i : String) (post : List String) (e : DBExc)
    (hpre : ∀ j ∈ pre, ∃ l, fetch j = .ok l) (hi : fetch i = .error e) :
    ∀ acc, dbc_load_go fetch (pre ++ i :: post) acc = .error e := by
  induction pre with
  | nil =>
    intro acc
    simp [dbc_load_go, hi]
  | cons j rest ih =>
    intro acc
    obtain ⟨l, hl⟩ := hpre j (List.mem_cons_self j rest)
    simp only [List.cons_append, dbc_load_go, hl]
    exact ih (fun k hk => hpre k (List.mem_cons_of_mem j hk)) _

/-- Claim C10: when a per-id fetch raises a StatementError or a
KeyboardInterrupt after any number of successful fetches,
dbc_load_statements rolls the session back and re-raises the same
exception unmodified, leaving the session in the rolled-back state. -/
theorem C10_rollback_and_reraise (fetch : String → Except DBExc (List Stmt))
    (pre : List String) (i : String) (post : List String) (s : Session)
    (e : DBExc) (hpre : ∀ j ∈ pre, ∃ l, fetch j = .ok l)
    (hi : fetch i = .error e)
    (he : e = DBExc.statementError ∨ e = DBExc.keyboardInterrupt) :
    dbc_load_statements fetch (pre ++ i :: post) s = (.error e, s.rollback) ∧
    (dbc_load_statements fetch (pre ++ i :: post) s).2.rolledBack = true := by
  have hgo := dbc_load_go_error fetch pre i post e hpre hi ∅
  have hmain : dbc_load_statements fetch (pre ++ i :: post) s =
      (.error e, s.rollback) := by
    unfold dbc_load_statements
    rw [hgo]
    rcases he with rfl | rfl <;> rfl
  refine ⟨hmain, ?_⟩
  rw [hmain]
  simp [Session.rollback]

theorem C10_rollback_and_reraise_witness :
    dbc_load_statements fetchBad (["G1"] ++ "G2" :: ["G3"])
        { rolledBack := false } =
      (.error DBExc.statementError,
        Session.rollback { rolledBack := false }) ∧
    (dbc_load_statements fetchBad (["G1"] ++ "G2" :: ["G3"])
        { rolledBack := false }).2.rolledBack = true :=
  C10_rollback_and_reraise fetchBad ["G1"] "G2" ["G3"] { rolledBack := false }
    DBExc.statementError
    (by
      intro j hj
      simp at hj
      subst hj
      exact ⟨[stmtAB], rfl⟩)
    rfl (Or.inl rfl)
